import Mathlib

/-!
Verification of the pattern-to-calendar mapping engine of
`github_word_drawer.py` (fake-github-contributions).

The Python source is shallowly embedded:
* the `LETTER_PATTERNS` dict becomes an association list from `Char` to the
  glyph bitmap, a `List String` of row strings over the characters `'█'`
  (filled) and `' '` (blank);
* the mutable 2-D grid of `_create_pattern_grid` becomes a
  `List (List Bool)` updated by explicit `List.set` operations, with the
  nested `for` loops expressed as folds over `List.range`;
* Python `datetime` values are modelled at day granularity by their
  proleptic-Gregorian ordinal (`date.toordinal`), an `Int`; day 1 is
  0001-01-01, a Monday, so `datetime.weekday()` (Monday = 0 … Sunday = 6)
  is `(d + 6) % 7`; `timedelta(weeks = w, days = d)` adds `w * 7 + d`;
* the commit timestamps produced by `create_commits` are modelled by the
  quadruple (day ordinal, hour, minute, second) that determines them.
-/

namespace GithubWordDrawer

/-- The `LETTER_PATTERNS` dict (source lines 16-260): ASCII-art bitmaps,
7 rows high, for the letters A-Z and the space character. -/
def LETTER_PATTERNS : List (Char × List String) := [
  ('A', [" ███ ", "█   █", "█   █", "█████", "█   █", "█   █", "     "]),
  ('B', ["████ ", "█   █", "█   █", "████ ", "█   █", "█   █", "████ "]),
  ('C', [" ███ ", "█   █", "█    ", "█    ", "█    ", "█   █", " ███ "]),
  ('D', ["████ ", "█   █", "█   █", "█   █", "█   █", "█   █", "████ "]),
  ('E', ["█████", "█    ", "█    ", "████ ", "█    ", "█    ", "█████"]),
  ('F', ["█████", "█    ", "█    ", "████ ", "█    ", "█    ", "█    "]),
  ('G', [" ███ ", "█   █", "█    ", "█ ███", "█   █", "█   █", " ███ "]),
  ('H', ["█   █", "█   █", "█   █", "█████", "█   █", "█   █", "█   █"]),
  ('I', ["█████", "  █  ", "  █  ", "  █  ", "  █  ", "  █  ", "█████"]),
  ('J', ["█████", "    █", "    █", "    █", "    █", "█   █", " ███ "]),
  ('K', ["█   █", "█  █ ", "█ █  ", "██   ", "█ █  ", "█  █ ", "█   █"]),
  ('L', ["█    ", "█    ", "█    ", "█    ", "█    ", "█    ", "█████"]),
  ('M', ["█   █", "██ ██", "█ █ █", "█   █", "█   █", "█   █", "█   █"]),
  ('N', ["█   █", "██  █", "█ █ █", "█  ██", "█   █", "█   █", "█   █"]),
  ('O', [" ███ ", "█   █", "█   █", "█   █", "█   █", "█   █", " ███ "]),
  ('P', ["████ ", "█   █", "█   █", "████ ", "█    ", "█    ", "█    "]),
  ('Q', [" ███ ", "█   █", "█   █", "█   █", "█ █ █", "█  █ ", " ████"]),
  ('R', ["████ ", "█   █", "█   █", "████ ", "█ █  ", "█  █ ", "█   █"]),
  ('S', [" ███ ", "█   █", "█    ", " ███ ", "    █", "█   █", " ███ "]),
  ('T', ["█████", "  █  ", "  █  ", "  █  ", "  █  ", "  █  ", "  █  "]),
  ('U', ["█   █", "█   █", "█   █", "█   █", "█   █", "█   █", " ███ "]),
  ('V', ["█   █", "█   █", "█   █", "█   █", "█   █", " █ █ ", "  █  "]),
  ('W', ["█   █", "█   █", "█   █", "█   █", "█ █ █", "██ ██", "█   █"]),
  ('X', ["█   █", " █ █ ", "  █  ", "  █  ", "  █  ", " █ █ ", "█   █"]),
  ('Y', ["█   █", "█   █", " █ █ ", "  █  ", "  █  ", "  █  ", "  █  "]),
  ('Z', ["█████", "    █", "   █ ", "  █  ", " █   ", "█    ", "█████"]),
  (' ', ["     ", "     ", "     ", "     ", "     ", "     ", "     "])]

/-- The membership test `char in LETTER_PATTERNS` of source line 289. -/
def supportedChar (c : Char) : Bool := (LETTER_PATTERNS.lookup c).isSome

/-- Glyph resolution of source lines 288-292: a supported character maps to
its own pattern, any other character falls back to `LETTER_PATTERNS[' ']`. -/
def lookupPattern (c : Char) : List String :=
  match LETTER_PATTERNS.lookup c with
  | some p => p
  | none => (LETTER_PATTERNS.lookup ' ').getD []

/-- `len(pattern[0])`, the width of a glyph (source lines 295 and 303). -/
def patternWidth (p : List String) : Nat := (p.headD "").length

/-- `self.word = word.upper()` of source line 265, for the letters-and-spaces
words accepted by the CLI. -/
def pyUpper (w : List Char) : List Char := w.map Char.toUpper

/-- Reading `grid[r][c]`; out-of-range indices read the harmless default
`false` (the Python code only indexes in range). -/
def getCell (g : List (List Bool)) (r c : Nat) : Bool := (g.getD r []).getD c false

/-- The assignment `grid[r][c] = b` of source line 308. -/
def setCell (g : List (List Bool)) (r c : Nat) (b : Bool) : List (List Bool) :=
  g.set r ((g.getD r []).set c b)

/-- The test `pattern[row][col] == '█'` of source line 307. -/
def markAt (p : List String) (row col : Nat) : Bool :=
  ((p.getD row "").toList.getD col ' ') == '█'

/-- The inner `for col in range(pattern_width)` loop of source lines 306-308
for one fixed row, folded over an explicit column list. -/
def fillRow (p : List String) (row colOffset : Nat) (g : List (List Bool))
    (cols : List Nat) : List (List Bool) :=
  cols.foldl (fun g col =>
    if markAt p row col then setCell g row (colOffset + col) true else g) g

/-- The `for row in range(7)` loop of source lines 305-308, folded over an
explicit row list. -/
def fillRows (p : List String) (colOffset : Nat) (g : List (List Bool))
    (rows : List Nat) : List (List Bool) :=
  rows.foldl (fun g row => fillRow p row colOffset g (List.range (patternWidth p))) g

/-- Stamping one glyph into the grid at a given column offset
(source lines 305-308). -/
def fillPattern (p : List String) (colOffset : Nat) (g : List (List Bool)) :
    List (List Bool) :=
  fillRows p colOffset g (List.range 7)

/-- The `for pattern in letter_patterns` loop of source lines 301-310,
advancing the offset by `pattern_width + 1` after each glyph. -/
def fillLetters : List (List String) → Nat → List (List Bool) → List (List Bool)
  | [], _, g => g
  | p :: ps, colOffset, g =>
      fillLetters ps (colOffset + patternWidth p + 1) (fillPattern p colOffset g)

/-- `_create_pattern_grid` (source lines 281-312), taking the already
upper-cased word as a list of characters. -/
def create_pattern_grid (word : List Char) : List (List Bool) :=
  if word = [] then []
  else
    let letter_patterns := word.map lookupPattern
    let total_width := (letter_patterns.map patternWidth).sum + letter_patterns.length - 1
    fillLetters letter_patterns 0 (List.replicate 7 (List.replicate total_width false))

/-- The unsorted date list built by the nested week/day loops of
`_get_commit_dates` (source lines 321-327): dates are day ordinals. -/
def rawDates (start_date : Int) (grid : List (List Bool)) : List Int :=
  (List.range (grid.headD []).length).flatMap (fun week =>
    (List.range 7).filterMap (fun day =>
      if getCell grid day week then some (start_date + ((week * 7 + day : Nat) : Int))
      else none))

/-- `_get_commit_dates` (source lines 314-329): empty-grid guard, nested
scan, then `sorted(...)`. -/
def get_commit_dates (start_date : Int) (grid : List (List Bool)) : List Int :=
  if grid = [] ∨ grid.headD [] = [] then []
  else (rawDates start_date grid).mergeSort (fun a b => decide (a ≤ b))

/-- Python `datetime.weekday()` on a day ordinal: Monday = 0 … Sunday = 6. -/
def pyWeekday (d : Int) : Int := (d + 6) % 7

/-- The default branch of `_parse_start_date` (source lines 273-279):
one year ago, snapped back to the most recent Sunday. -/
def default_start_date (now : Int) : Int :=
  let one_year_ago := now - 365
  let days_since_sunday := pyWeekday one_year_ago + 1
  let days_since_sunday := if days_since_sunday = 7 then 0 else days_since_sunday
  one_year_ago - days_since_sunday

/-- The time of day given to commit number `commit_num` of a date
(source lines 380-382): `(hour, minute, second)` with
`hours = (commit_num * 24) // commits_per_date`,
`minutes = (commit_num * 60) % 60`, `second = 0`. -/
def commitTime (commit_num commits_per_date : Nat) : Nat × Nat × Nat :=
  ((commit_num * 24) / commits_per_date, (commit_num * 60) % 60, 0)

/-- The full timestamps produced by the loops of `create_commits`
(source lines 365-382): one per (date, commit number) pair, date-major. -/
def commitDatetimes (dates : List Int) (commits_per_date : Nat) :
    List (Int × Nat × Nat × Nat) :=
  dates.flatMap (fun d =>
    (List.range commits_per_date).map (fun i => (d, commitTime i commits_per_date)))

/-- Time of day in minutes of a modelled `(hour, minute, second)` triple. -/
def timeMinutes (t : Nat × Nat × Nat) : Nat := t.1 * 60 + t.2.1

/-- Width of the glyph a character resolves to. -/
def glyphWidth (c : Char) : Nat := patternWidth (lookupPattern c)

/-- Number of true cells of a grid. -/
def countTrue (g : List (List Bool)) : Nat :=
  (g.map (fun row => (row.filter (fun b => b)).length)).sum

/-- The glyph of the pattern list `ps`, laid out from base offset `off` with
one separator column after each glyph, that covers column `c` has a filled
mark at row `r` and the corresponding local column. -/
def contributes : List (List String) → Nat → Nat → Nat → Prop
  | [], _, _, _ => False
  | p :: ps, off, r, c =>
      (off ≤ c ∧ c < off + patternWidth p ∧ markAt p r (c - off) = true) ∨
      contributes ps (off + patternWidth p + 1) r c

instance instDecidableContributes :
    ∀ ps off r c, Decidable (contributes ps off r c)
  | [], _, _, _ => by unfold contributes; exact inferInstance
  | p :: ps, off, r, c => by
      unfold contributes
      have := instDecidableContributes ps (off + patternWidth p + 1) r c
      exact inferInstance

/-- Starting column of glyph `k` in the composed grid: the widths of the
glyphs before it plus one separator column per glyph before it. -/
def offsetOf (ps : List (List String)) (k : Nat) : Nat :=
  ((ps.take k).map patternWidth).sum + k

/-- Total width of the composed grid of a non-empty word. -/
def gridWidth (word : List Char) : Nat :=
  ((word.map lookupPattern).map patternWidth).sum + word.length - 1

/-- Claim C7: with no explicit start date, the computed anchor is a Sunday,
lies at least 365 days before "now", and is the most recent such Sunday
(within 6 days of now − 365). -/
theorem default_start_sunday (now : Int) :
    pyWeekday (default_start_date now) = 6 ∧
    default_start_date now ≤ now - 365 ∧
    now - 365 - default_start_date now ≤ 6 := by
  simp only [default_start_date, pyWeekday]
  split <;> omega

/-- Claim C9: every entry of the glyph table has a bitmap of exactly 7 rows,
and within one glyph every row has the same length. -/
theorem letter_patterns_shape :
    ∀ e ∈ LETTER_PATTERNS,
      e.2.length = 7 ∧ ∀ row ∈ e.2, row.length = (e.2.headD "").length := by
  decide

/-- Witness for C9: the glyph of `'A'` is an entry and satisfies the shape
property. -/
theorem letter_patterns_shape_witness :
    (('A', [" ███ ", "█   █", "█   █", "█████", "█   █", "█   █", "     "]) :
        Char × List String) ∈ LETTER_PATTERNS ∧
      ([" ███ ", "█   █", "█   █", "█████", "█   █", "█   █", "     "] :
          List String).length = 7 ∧
      ∀ row ∈ ([" ███ ", "█   █", "█   █", "█████", "█   █", "█   █", "     "] :
          List String),
        row.length =
          (([" ███ ", "█   █", "█   █", "█████", "█   █", "█   █", "     "] :
              List String).headD "").length :=
  ⟨by decide,
    letter_patterns_shape
      ('A', [" ███ ", "█   █", "█   █", "█████", "█   █", "█   █", "     "])
      (by decide)⟩

theorem length_commitDatetimes (dates : List Int) (cpd : Nat) :
    (commitDatetimes dates cpd).length = dates.length * cpd := by
  induction dates with
  | nil => simp [commitDatetimes]
  | cons d ds ih =>
      simp only [commitDatetimes, List.flatMap_cons, List.length_append,
        List.length_map, List.length_range, List.length_cons, Nat.succ_mul] at ih ⊢
      omega

/-- Claim C8: with multiplier 3 on a date list of length 5, exactly 15
commit timestamps are produced, 3 per original date; within each date the 3
commits get pairwise distinct times of day, all inside the same calendar
day, evenly spaced (8 hours = 24/3 hours apart). -/
theorem three_commits_per_date (dates : List Int) (h : dates.length = 5) :
    (commitDatetimes dates 3).length = 15 ∧
    commitDatetimes dates 3 =
      dates.flatMap (fun d => [(d, 0, 0, 0), (d, 8, 0, 0), (d, 16, 0, 0)]) ∧
    ((List.range 3).map (fun i => commitTime i 3)).Nodup ∧
    (∀ i < 3, (commitTime i 3).1 < 24) ∧
    (∀ i, i + 1 < 3 →
      timeMinutes (commitTime (i + 1) 3) - timeMinutes (commitTime i 3) =
        (24 * 60) / 3) := by
  refine ⟨by rw [length_commitDatetimes, h], ?_, by decide, by decide, ?_⟩
  · rfl
  · intro i hi
    have h2 : i < 2 := by omega
    interval_cases i <;> decide

/-- Witness for C8: the date list `[0, 1, 2, 3, 4]` has length 5 and yields
15 commit timestamps. -/
theorem three_commits_per_date_witness :
    ([0, 1, 2, 3, 4] : List Int).length = 5 ∧
    (commitDatetimes [0, 1, 2, 3, 4] 3).length = 15 :=
  ⟨rfl, (three_commits_per_date [0, 1, 2, 3, 4] rfl).1⟩

/-- Claim C10: every commit time of day has minute 0 and second 0 — commits
within a date differ only by the whole hour `(i * 24) / n` — and for any
commits-per-date value above 24 two distinct commit indices on the same
date receive identical timestamps. -/
theorem commit_times_whole_hours :
    (∀ cpd i, (commitTime i cpd).2.1 = 0 ∧ (commitTime i cpd).2.2 = 0 ∧
      timeMinutes (commitTime i cpd) = 60 * ((i * 24) / cpd)) ∧
    (∀ cpd, 24 < cpd → ∃ i j, i < j ∧ j < cpd ∧
      commitTime i cpd = commitTime j cpd) := by
  constructor
  · intro cpd i
    refine ⟨Nat.mul_mod_left i 60, rfl, ?_⟩
    simp [timeMinutes, commitTime, Nat.mul_mod_left, Nat.mul_comm]
  · intro cpd hcpd
    refine ⟨0, 1, Nat.zero_lt_one, by omega, ?_⟩
    simp [commitTime, Nat.div_eq_of_lt, hcpd]

/-- Witness for C10: with 25 commits per date there are two commit indices
with the same timestamp. -/
theorem commit_times_whole_hours_witness :
    (24 : Nat) < 25 ∧ ∃ i j, i < j ∧ j < 25 ∧ commitTime i 25 = commitTime j 25 :=
  ⟨by decide, commit_times_whole_hours.2 25 (by decide)⟩

theorem getD_set {α : Type} (l : List α) (i : Nat) (a d : α) (j : Nat) :
    (l.set i a).getD j d = if i = j ∧ i < l.length then a else l.getD j d := by
  simp only [List.getD_eq_getElem?_getD, List.getElem?_set]
  by_cases h : i = j
  · subst h
    by_cases h2 : i < l.length
    · simp [h2]
    · simp only [h2, if_true, if_false, and_true, if_neg h2]
      rw [List.getElem?_eq_none (by omega)]
      simp
  · simp [h]

theorem length_setCell (g : List (List Bool)) (r c : Nat) (b : Bool) :
    (setCell g r c b).length = g.length := by
  simp [setCell]

theorem rowLen_setCell (g : List (List Bool)) (r c : Nat) (b : Bool) (i : Nat) :
    ((setCell g r c b).getD i []).length = (g.getD i []).length := by
  unfold setCell
  rw [getD_set]
  split
  · next h => rw [← h.1]; simp
  · rfl

theorem getCell_setCell (g : List (List Bool)) (r c : Nat) (b : Bool) (r' c' : Nat) :
    getCell (setCell g r c b) r' c' =
      if r = r' ∧ c = c' ∧ r < g.length ∧ c < (g.getD r []).length then b
      else getCell g r' c' := by
  unfold getCell setCell
  by_cases hr : r = r'
  · subst hr
    by_cases hlen : r < g.length
    · rw [getD_set, if_pos ⟨rfl, hlen⟩, getD_set]
      by_cases hc : c = c'
      · subst hc
        by_cases hcl : c < (g.getD r []).length
        · rw [if_pos ⟨rfl, hcl⟩, if_pos ⟨rfl, rfl, hlen, hcl⟩]
        · rw [if_neg (by tauto), if_neg (by tauto)]
      · rw [if_neg (by tauto), if_neg (by tauto)]
    · rw [getD_set, if_neg (by tauto), if_neg (by tauto)]
  · rw [getD_set, if_neg (by tauto), if_neg (by tauto)]

theorem length_fillRow (p : List String) (row off : Nat) (g : List (List Bool))
    (cols : List Nat) : (fillRow p row off g cols).length = g.length := by
  induction cols generalizing g with
  | nil => rfl
  | cons col cols ih =>
      show (fillRow p row off
        (if markAt p row col then setCell g row (off + col) true else g) cols).length
        = g.length
      rw [ih]
      split <;> simp [length_setCell]

theorem rowLen_fillRow (p : List String) (row off : Nat) (g : List (List Bool))
    (cols : List Nat) (i : Nat) :
    ((fillRow p row off g cols).getD i []).length = (g.getD i []).length := by
  induction cols generalizing g with
  | nil => rfl
  | cons col cols ih =>
      show ((fillRow p row off
        (if markAt p row col then setCell g row (off + col) true else g) cols).getD i
          []).length = (g.getD i []).length
      rw [ih]
      split
      · exact rowLen_setCell g row (off + col) true i
      · rfl

theorem getCell_fillRow (p : List String) (row off : Nat) (g : List (List Bool))
    (cols : List Nat) (r c : Nat) :
    getCell (fillRow p row off g cols) r c = true ↔
      getCell g r c = true ∨
        (r = row ∧ row < g.length ∧ c < (g.getD row []).length ∧
          ∃ col ∈ cols, off + col = c ∧ markAt p row col = true) := by
  induction cols generalizing g with
  | nil => simp [fillRow]
  | cons col cols ih =>
      show getCell (fillRow p row off
        (if markAt p row col then setCell g row (off + col) true else g) cols) r c = true
        ↔ _
      rw [ih]
      have hL : (if markAt p row col then setCell g row (off + col) true else g).length
          = g.length := by split <;> simp [length_setCell]
      have hR : ((if markAt p row col then setCell g row (off + col) true else g).getD
          row []).length = (g.getD row []).length := by
        split
        · exact rowLen_setCell g row (off + col) true row
        · rfl
      rw [hL, hR]
      by_cases hm : markAt p row col = true
      · rw [if_pos hm, getCell_setCell]
        split_ifs with hcond
        · constructor
          · intro _
            right
            obtain ⟨h1, h2, h3, h4⟩ := hcond
            exact ⟨h1.symm, h3, by omega, col, List.mem_cons_self _ _, h2, hm⟩
          · intro _
            exact Or.inl rfl
        · constructor
          · rintro (h | ⟨h1, h2, h3, col', hmem, h4, h5⟩)
            · exact Or.inl h
            · exact Or.inr ⟨h1, h2, h3, col', List.mem_cons_of_mem _ hmem, h4, h5⟩
          · rintro (h | ⟨h1, h2, h3, col', hmem, h4, h5⟩)
            · exact Or.inl h
            · rcases List.mem_cons.mp hmem with rfl | hmem'
              · exact absurd ⟨h1.symm, h4, h2, by omega⟩ hcond
              · exact Or.inr ⟨h1, h2, h3, col', hmem', h4, h5⟩
      · rw [if_neg hm]
        constructor
        · rintro (h | ⟨h1, h2, h3, col', hmem, h4, h5⟩)
          · exact Or.inl h
          · exact Or.inr ⟨h1, h2, h3, col', List.mem_cons_of_mem _ hmem, h4, h5⟩
        · rintro (h | ⟨h1, h2, h3, col', hmem, h4, h5⟩)
          · exact Or.inl h
          · rcases List.mem_cons.mp hmem with rfl | hmem'
            · exact absurd h5 hm
            · exact Or.inr ⟨h1, h2, h3, col', hmem', h4, h5⟩

theorem length_fillRows (p : List String) (off : Nat) (g : List (List Bool))
    (rows : List Nat) : (fillRows p off g rows).length = g.length := by
  induction rows generalizing g with
  | nil => rfl
  | cons row rows ih =>
      show (fillRows p off (fillRow p row off g (List.range (patternWidth p))) rows).length
        = g.length
      rw [ih, length_fillRow]

theorem rowLen_fillRows (p : List String) (off : Nat) (g : List (List Bool))
    (rows : List Nat) (i : Nat) :
    ((fillRows p off g rows).getD i []).length = (g.getD i []).length := by
  induction rows generalizing g with
  | nil => rfl
  | cons row rows ih =>
      show ((fillRows p off (fillRow p row off g (List.range (patternWidth p)))
        rows).getD i []).length = (g.getD i []).length
      rw [ih, rowLen_fillRow]

theorem getCell_fillRows (p : List String) (off : Nat) (g : List (List Bool))
    (rows : List Nat) (r c : Nat) :
    getCell (fillRows p off g rows) r c = true ↔
      getCell g r c = true ∨
        (r ∈ rows ∧ r < g.length ∧ c < (g.getD r []).length ∧
          off ≤ c ∧ c < off + patternWidth p ∧ markAt p r (c - off) = true) := by
  induction rows generalizing g with
  | nil => simp [fillRows]
  | cons row rows ih =>
      show getCell (fillRows p off (fillRow p row off g (List.range (patternWidth p)))
        rows) r c = true ↔ _
      rw [ih, length_fillRow, rowLen_fillRow, getCell_fillRow]
      have hex : (∃ col ∈ List.range (patternWidth p),
          off + col = c ∧ markAt p row col = true) ↔
          (off ≤ c ∧ c < off + patternWidth p ∧ markAt p row (c - off) = true) := by
        constructor
        · rintro ⟨col, hmem, hcol, hmark⟩
          rw [List.mem_range] at hmem
          refine ⟨by omega, by omega, ?_⟩
          have : c - off = col := by omega
          rw [this]
          exact hmark
        · rintro ⟨h1, h2, h3⟩
          exact ⟨c - off, List.mem_range.mpr (by omega), by omega, h3⟩
      rw [hex]
      constructor
      · rintro ((h | ⟨rfl, h2, h3, h4⟩) | ⟨h1, h2, h3, h4⟩)
        · exact Or.inl h
        · exact Or.inr ⟨List.mem_cons_self _ _, h2, h3, h4⟩
        · exact Or.inr ⟨List.mem_cons_of_mem _ h1, h2, h3, h4⟩
      · rintro (h | ⟨h1, h2, h3, h4⟩)
        · exact Or.inl (Or.inl h)
        · rcases List.mem_cons.mp h1 with rfl | hmem'
          · exact Or.inl (Or.inr ⟨rfl, h2, h3, h4⟩)
          · exact Or.inr ⟨hmem', h2, h3, h4⟩

theorem length_fillLetters (ps : List (List String)) (off : Nat)
    (g : List (List Bool)) : (fillLetters ps off g).length = g.length := by
  induction ps generalizing off g with
  | nil => rfl
  | cons p ps ih =>
      show (fillLetters ps (off + patternWidth p + 1) (fillPattern p off g)).length
        = g.length
      rw [ih]
      exact length_fillRows _ _ _ _

theorem rowLen_fillLetters (ps : List (List String)) (off : Nat)
    (g : List (List Bool)) (i : Nat) :
    ((fillLetters ps off g).getD i []).length = (g.getD i []).length := by
  induction ps generalizing off g with
  | nil => rfl
  | cons p ps ih =>
      show ((fillLetters ps (off + patternWidth p + 1) (fillPattern p off g)).getD i
        []).length = (g.getD i []).length
      rw [ih]
      exact rowLen_fillRows _ _ _ _ _

theorem getCell_fillLetters (ps : List (List String)) (off : Nat)
    (g : List (List Bool)) (r c : Nat) :
    getCell (fillLetters ps off g) r c = true ↔
      getCell g r c = true ∨
        (r < 7 ∧ r < g.length ∧ c < (g.getD r []).length ∧ contributes ps off r c) := by
  induction ps generalizing off g with
  | nil => simp [fillLetters, contributes]
  | cons p ps ih =>
      show getCell (fillLetters ps (off + patternWidth p + 1) (fillPattern p off g)) r c
        = true ↔ _
      rw [ih]
      unfold fillPattern
      rw [length_fillRows, rowLen_fillRows, getCell_fillRows]
      simp only [List.mem_range]
      show _ ↔ _ ∨ (_ ∧ _ ∧ _ ∧
        ((off ≤ c ∧ c < off + patternWidth p ∧ markAt p r (c - off) = true) ∨
          contributes ps (off + patternWidth p + 1) r c))
      tauto

theorem contributes_ge (ps : List (List String)) (off r c : Nat)
    (h : contributes ps off r c) : off ≤ c := by
  induction ps generalizing off with
  | nil => simp only [contributes] at h
  | cons p ps ih =>
      simp only [contributes] at h
      rcases h with ⟨h1, _, _⟩ | h2
      · exact h1
      · have := ih (off + patternWidth p + 1) h2
        omega

theorem contributes_block (ps : List (List String)) :
    ∀ k off r j, k < ps.length → j < patternWidth (ps.getD k []) →
      (contributes ps off r (off + offsetOf ps k + j) ↔
        markAt (ps.getD k []) r j = true) := by
  induction ps with
  | nil => intro k off r j hk _; simp at hk
  | cons p ps ih =>
      intro k off r j hk hj
      cases k with
      | zero =>
          simp only [List.getD_cons_zero] at hj ⊢
          have ho : offsetOf (p :: ps) 0 = 0 := by simp [offsetOf]
          rw [ho]
          simp only [contributes]
          constructor
          · rintro (⟨h1, h2, h3⟩ | h2)
            · have he : off + 0 + j - off = j := by omega
              rw [he] at h3
              exact h3
            · have := contributes_ge _ _ _ _ h2
              omega
          · intro hm
            left
            refine ⟨by omega, by omega, ?_⟩
            have he : off + 0 + j - off = j := by omega
            rw [he]
            exact hm
      | succ k =>
          have hk' : k < ps.length := by simpa using hk
          have hj' : j < patternWidth (ps.getD k []) := by
            simpa [List.getD_cons_succ] using hj
          have ho : offsetOf (p :: ps) (k + 1) = patternWidth p + 1 + offsetOf ps k := by
            simp only [offsetOf, List.take_succ_cons, List.map_cons, List.sum_cons]
            omega
          rw [ho, List.getD_cons_succ]
          simp only [contributes]
          have he : off + (patternWidth p + 1 + offsetOf ps k) + j =
              (off + patternWidth p + 1) + offsetOf ps k + j := by omega
          rw [he]
          constructor
          · rintro (⟨h1, h2, h3⟩ | h2)
            · omega
            · exact (ih k (off + patternWidth p + 1) r j hk' hj').mp h2
          · intro hm
            exact Or.inr ((ih k (off + patternWidth p + 1) r j hk' hj').mpr hm)

theorem sep_not_contributes (ps : List (List String)) :
    ∀ k off r, k + 1 < ps.length →
      ¬ contributes ps off r (off + offsetOf ps k + patternWidth (ps.getD k [])) := by
  induction ps with
  | nil => intro k off r hk; simp at hk
  | cons p ps ih =>
      intro k off r hk h
      cases k with
      | zero =>
          have ho : offsetOf (p :: ps) 0 = 0 := by simp [offsetOf]
          rw [ho, List.getD_cons_zero] at h
          simp only [contributes] at h
          rcases h with ⟨_, h2, _⟩ | h2
          · omega
          · have := contributes_ge _ _ _ _ h2
            omega
      | succ k =>
          have hk' : k + 1 < ps.length := by simpa using hk
          have ho : offsetOf (p :: ps) (k + 1) = patternWidth p + 1 + offsetOf ps k := by
            simp only [offsetOf, List.take_succ_cons, List.map_cons, List.sum_cons]
            omega
          rw [ho, List.getD_cons_succ] at h
          simp only [contributes] at h
          rcases h with ⟨_, h2, _⟩ | h2
          · omega
          · have he : off + (patternWidth p + 1 + offsetOf ps k) +
                patternWidth (ps.getD k []) =
                (off + patternWidth p + 1) + offsetOf ps k +
                  patternWidth (ps.getD k []) := by omega
            rw [he] at h2
            exact ih k (off + patternWidth p + 1) r hk' h2

theorem no_mark_no_contributes (ps : List (List String)) :
    ∀ off r c, (∀ p ∈ ps, ∀ i j, markAt p i j = false) →
      ¬ contributes ps off r c := by
  induction ps with
  | nil => intro off r c _ h; simp only [contributes] at h
  | cons p ps ih =>
      intro off r c hall h
      simp only [contributes] at h
      rcases h with ⟨_, _, h3⟩ | h2
      · rw [hall p (List.mem_cons_self _ _) r (c - off)] at h3
        exact absurd h3 (by decide)
      · exact ih (off + patternWidth p + 1) r c
          (fun q hq => hall q (List.mem_cons_of_mem _ hq)) h2

theorem markAt_space (r j : Nat) : markAt (List.replicate 7 "     ") r j = false := by
  have hrow : (List.replicate 7 "     ").getD r "" = "     " ∨
      (List.replicate 7 "     ").getD r "" = "" := by
    rw [List.getD_eq_getElem?_getD, List.getElem?_replicate]
    split
    · exact Or.inl rfl
    · exact Or.inr rfl
  unfold markAt
  rcases hrow with h | h <;> rw [h]
  · match j with
    | 0 | 1 | 2 | 3 | 4 => rfl
    | n + 5 => rfl
  · cases j <;> rfl

theorem lookupPattern_unsupported (c : Char) (hc : supportedChar c = false) :
    lookupPattern c = List.replicate 7 "     " := by
  unfold lookupPattern
  unfold supportedChar at hc
  cases h : LETTER_PATTERNS.lookup c with
  | some p => rw [h] at hc; simp at hc
  | none => decide

theorem create_pattern_grid_eq (w : List Char) (hw : w ≠ []) :
    create_pattern_grid w =
      fillLetters (w.map lookupPattern) 0
        (List.replicate 7 (List.replicate (gridWidth w) false)) := by
  unfold create_pattern_grid
  rw [if_neg hw]
  show fillLetters (w.map lookupPattern) 0
      (List.replicate 7 (List.replicate
        (((w.map lookupPattern).map patternWidth).sum +
          (w.map lookupPattern).length - 1) false)) = _
  rw [List.length_map]
  rfl

theorem length_create_pattern_grid (w : List Char) (hw : w ≠ []) :
    (create_pattern_grid w).length = 7 := by
  rw [create_pattern_grid_eq w hw, length_fillLetters]
  simp

theorem rowLen_create_pattern_grid (w : List Char) (hw : w ≠ []) (i : Nat) :
    ((create_pattern_grid w).getD i []).length = if i < 7 then gridWidth w else 0 := by
  rw [create_pattern_grid_eq w hw, rowLen_fillLetters]
  rw [List.getD_eq_getElem?_getD, List.getElem?_replicate]
  split
  · simp
  · simp

theorem getCell_replicate_init (tw r c : Nat) :
    getCell (List.replicate 7 (List.replicate tw false)) r c = false := by
  have hrow : (List.replicate 7 (List.replicate tw false)).getD r [] =
      List.replicate tw false ∨
      (List.replicate 7 (List.replicate tw false)).getD r [] = [] := by
    rw [List.getD_eq_getElem?_getD, List.getElem?_replicate]
    split
    · exact Or.inl rfl
    · exact Or.inr rfl
  unfold getCell
  rcases hrow with h | h <;> rw [h]
  · rw [List.getD_eq_getElem?_getD, List.getElem?_replicate]
    split <;> rfl
  · cases c <;> rfl

theorem getCell_create_pattern_grid (w : List Char) (hw : w ≠ []) (r c : Nat) :
    getCell (create_pattern_grid w) r c = true ↔
      r < 7 ∧ c < gridWidth w ∧ contributes (w.map lookupPattern) 0 r c := by
  rw [create_pattern_grid_eq w hw, getCell_fillLetters, getCell_replicate_init]
  simp only [List.length_replicate, Bool.false_eq_true, false_or]
  constructor
  · rintro ⟨h1, h2, h3, h4⟩
    refine ⟨h1, ?_, h4⟩
    rw [List.getD_eq_getElem?_getD, List.getElem?_replicate, if_pos h1] at h3
    simpa using h3
  · rintro ⟨h1, h2, h3⟩
    refine ⟨h1, h1, ?_, h3⟩
    rw [List.getD_eq_getElem?_getD, List.getElem?_replicate, if_pos h1]
    simpa using h2

theorem rows_create_pattern_grid (w : List Char) (hw : w ≠ []) :
    ∀ row ∈ create_pattern_grid w, row.length = gridWidth w := by
  intro row hrow
  rw [List.mem_iff_getElem?] at hrow
  obtain ⟨i, hi⟩ := hrow
  have hlen : i < (create_pattern_grid w).length := by
    by_contra hcon
    rw [List.getElem?_eq_none (by omega)] at hi
    cases hi
  have h7 : i < 7 := by
    rw [length_create_pattern_grid w hw] at hlen
    exact hlen
  have hr := rowLen_create_pattern_grid w hw i
  rw [List.getD_eq_getElem?_getD, hi] at hr
  simpa [h7] using hr

/-- Claim C1: for a non-empty word all of whose characters are supported
after uppercase normalization, the composed grid has exactly 7 rows and
every row has length the sum of the glyph widths plus (word length − 1). -/
theorem compose_shape (w : List Char) (hw : w ≠ [])
    (hsup : ∀ c ∈ pyUpper w, supportedChar c = true) :
    (create_pattern_grid (pyUpper w)).length = 7 ∧
    ∀ row ∈ create_pattern_grid (pyUpper w),
      row.length = ((pyUpper w).map glyphWidth).sum + ((pyUpper w).length - 1) := by
  have hne : pyUpper w ≠ [] := by
    intro h
    exact hw (List.map_eq_nil_iff.mp h)
  refine ⟨length_create_pattern_grid _ hne, ?_⟩
  intro row hrow
  rw [rows_create_pattern_grid _ hne row hrow]
  unfold gridWidth
  have hmaps : ((pyUpper w).map lookupPattern).map patternWidth =
      (pyUpper w).map glyphWidth := by
    rw [List.map_map]
    rfl
  rw [hmaps]
  have h1 : 1 ≤ (pyUpper w).length := by
    cases hu : pyUpper w with
    | nil => exact absurd hu hne
    | cons a l => simp
  omega

/-- Witness for C1: the word "hi" (uppercased to "HI") gives a 7-row grid
whose rows all have length 11 = 5 + 5 + 1. -/
theorem compose_shape_witness :
    (create_pattern_grid (pyUpper ['h', 'i'])).length = 7 ∧
    ∀ row ∈ create_pattern_grid (pyUpper ['h', 'i']), row.length = 11 := by
  have h := compose_shape ['h', 'i'] (by decide) (by decide)
  refine ⟨h.1, fun row hrow => ?_⟩
  have h2 := h.2 row hrow
  rw [show ((pyUpper ['h', 'i']).map glyphWidth).sum +
      ((pyUpper ['h', 'i']).length - 1) = 11 from by decide] at h2
  exact h2

/-- Claim C4: a cell (r, c) of the composed grid is true iff the glyph
covering column c has a filled mark at row r and local column c minus the
glyph's starting offset; the separator column after each non-final glyph is
entirely false. -/
theorem compose_cells (w : List Char) (hw : w ≠ []) :
    (∀ r c, getCell (create_pattern_grid w) r c = true ↔
      (r < 7 ∧ c < gridWidth w ∧ contributes (w.map lookupPattern) 0 r c)) ∧
    (∀ k r, k + 1 < w.length →
      getCell (create_pattern_grid w) r
        (offsetOf (w.map lookupPattern) k +
          patternWidth ((w.map lookupPattern).getD k [])) = false) := by
  refine ⟨fun r c => getCell_create_pattern_grid w hw r c, ?_⟩
  intro k r hk
  rw [Bool.eq_false_iff]
  intro h
  rw [getCell_create_pattern_grid w hw] at h
  obtain ⟨_, _, hcont⟩ := h
  refine sep_not_contributes (w.map lookupPattern) k 0 r (by simpa using hk) ?_
  simpa using hcont

/-- Witness for C4: in the grid for "HI" the separator column between the
two glyphs (column 5) is false at row 0. -/
theorem compose_cells_witness :
    getCell (create_pattern_grid ['H', 'I']) 0
      (offsetOf (['H', 'I'].map lookupPattern) 0 +
        patternWidth ((['H', 'I'].map lookupPattern).getD 0 [])) = false :=
  (compose_cells ['H', 'I'] (by decide)).2 0 0 (by decide)

/-- Claim C5: a character that is unsupported after uppercase normalization
resolves to the all-blank 7×5 space glyph, and its column block in the
composed grid contains no true cell. -/
theorem unsupported_char_blank (w : List Char) (k : Nat)
    (hk : k < (pyUpper w).length)
    (hc : supportedChar ((pyUpper w).getD k ' ') = false) :
    lookupPattern ((pyUpper w).getD k ' ') = List.replicate 7 "     " ∧
    glyphWidth ((pyUpper w).getD k ' ') = 5 ∧
    ∀ r j, j < 5 →
      getCell (create_pattern_grid (pyUpper w)) r
        (offsetOf ((pyUpper w).map lookupPattern) k + j) = false := by
  have hpat := lookupPattern_unsupported _ hc
  have hw : pyUpper w ≠ [] := by
    intro h
    rw [h] at hk
    simp at hk
  refine ⟨hpat, by rw [glyphWidth, hpat]; decide, ?_⟩
  intro r j hj
  rw [Bool.eq_false_iff]
  intro h
  rw [getCell_create_pattern_grid _ hw] at h
  obtain ⟨h1, h2, hcont⟩ := h
  have hkps : k < ((pyUpper w).map lookupPattern).length := by simpa using hk
  have hsome : (pyUpper w)[k]? = some ((pyUpper w).getD k ' ') := by
    rw [List.getD_eq_getElem?_getD]
    cases hx : (pyUpper w)[k]? with
    | none =>
        rw [List.getElem?_eq_none_iff] at hx
        omega
    | some a => rfl
  have hgetD : ((pyUpper w).map lookupPattern).getD k [] = List.replicate 7 "     " := by
    rw [List.getD_eq_getElem?_getD, List.getElem?_map, hsome]
    exact hpat
  have hwidth : j < patternWidth (((pyUpper w).map lookupPattern).getD k []) := by
    rw [hgetD]
    exact hj
  have hcont' : contributes ((pyUpper w).map lookupPattern) 0 r
      (0 + offsetOf ((pyUpper w).map lookupPattern) k + j) := by
    simpa using hcont
  have hmark := (contributes_block ((pyUpper w).map lookupPattern) k 0 r j
    hkps hwidth).mp hcont'
  rw [hgetD, markAt_space] at hmark
  exact absurd hmark (by decide)

/-- Witness for C5: the digit '1' in the word "h1" resolves to the space
glyph and its block at columns 6-10 is entirely false. -/
theorem unsupported_char_blank_witness :
    lookupPattern ((pyUpper ['h', '1']).getD 1 ' ') = List.replicate 7 "     " ∧
    glyphWidth ((pyUpper ['h', '1']).getD 1 ' ') = 5 ∧
    ∀ r j, j < 5 →
      getCell (create_pattern_grid (pyUpper ['h', '1'])) r
        (offsetOf ((pyUpper ['h', '1']).map lookupPattern) 1 + j) = false :=
  unsupported_char_blank ['h', '1'] 1 (by decide) (by decide)

/-- Claim C6: composing the empty word gives the empty grid, converting the
empty grid gives the empty date list, and a word of only spaces or
unsupported characters yields zero dates. -/
theorem empty_word_empty_dates :
    create_pattern_grid [] = [] ∧
    (∀ a : Int, get_commit_dates a [] = []) ∧
    (∀ (w : List Char) (a : Int), (∀ c ∈ w, c = ' ' ∨ supportedChar c = false) →
      get_commit_dates a (create_pattern_grid w) = []) := by
  refine ⟨rfl, fun a => by simp [get_commit_dates], ?_⟩
  intro w a hall
  by_cases hw : w = []
  · subst hw
    simp [get_commit_dates, create_pattern_grid]
  · have hcells : ∀ r c, getCell (create_pattern_grid w) r c = false := by
      intro r c
      rw [Bool.eq_false_iff]
      intro h
      rw [getCell_create_pattern_grid w hw] at h
      obtain ⟨_, _, hcont⟩ := h
      refine no_mark_no_contributes (w.map lookupPattern) 0 r c ?_ hcont
      intro p hp i j
      rw [List.mem_map] at hp
      obtain ⟨ch, hch, rfl⟩ := hp
      rcases hall ch hch with rfl | hcu
      · rw [show lookupPattern ' ' = List.replicate 7 "     " from by decide]
        exact markAt_space i j
      · rw [lookupPattern_unsupported ch hcu]
        exact markAt_space i j
    unfold get_commit_dates
    split
    · rfl
    · have hraw : rawDates a (create_pattern_grid w) = [] := by
        unfold rawDates
        rw [List.flatMap_eq_nil_iff]
        intro week _
        rw [List.filterMap_eq_nil_iff]
        intro day _
        rw [hcells day week]
        simp
      rw [hraw]
      simp

/-- Witness for C6: the word "1" (a single unsupported character) yields no
dates. -/
theorem empty_word_empty_dates_witness :
    get_commit_dates 0 (create_pattern_grid ['1']) = [] :=
  empty_word_empty_dates.2.2 ['1'] 0 (by decide)

theorem list_range_map_sum (f : Nat → Nat) (n : Nat) :
    ((List.range n).map f).sum = ∑ i in Finset.range n, f i := by
  induction n with
  | zero => simp
  | succ n ih => rw [List.range_succ]; simp [ih, Finset.sum_range_succ]

theorem filterMap_if_length {α β : Type} (l : List α) (p : α → Bool) (f : α → β) :
    (l.filterMap (fun d => if p d then some (f d) else none)).length =
      (l.map (fun d => if p d then 1 else 0)).sum := by
  induction l with
  | nil => rfl
  | cons x l ih => cases h : p x <;> simp [List.filterMap_cons, h, ih] <;> omega

theorem filter_length_sum (row : List Bool) :
    (row.filter (fun b => b)).length =
      ∑ i in Finset.range row.length, (if row.getD i false then 1 else 0) := by
  induction row with
  | nil => simp
  | cons b bs ih =>
      rw [List.length_cons, Finset.sum_range_succ']
      simp only [List.getD_cons_succ, List.getD_cons_zero]
      rw [← ih]
      cases b <;> simp [List.filter_cons]

theorem flatMap_length {α β : Type} (l : List α) (f : α → List β) :
    (l.flatMap f).length = (l.map (fun x => (f x).length)).sum := by
  induction l with
  | nil => rfl
  | cons x l ih => simp [List.flatMap_cons, ih]

theorem map_sum_getD (g : List (List Bool)) (f : List Bool → Nat) :
    (g.map f).sum = ∑ i in Finset.range g.length, f (g.getD i []) := by
  induction g with
  | nil => simp
  | cons row rows ih =>
      rw [List.map_cons, List.sum_cons, List.length_cons, Finset.sum_range_succ']
      simp only [List.getD_cons_succ, List.getD_cons_zero]
      rw [ih]
      omega

theorem length_rawDates (a : Int) (g : List (List Bool)) (W : Nat)
    (h7 : g.length = 7) (hrect : ∀ row ∈ g, row.length = W) :
    (rawDates a g).length = countTrue g := by
  have hg : g ≠ [] := by intro h; rw [h] at h7; simp at h7
  have hW : (g.headD []).length = W := by
    cases g with
    | nil => exact absurd rfl hg
    | cons r0 rest => exact hrect r0 (List.mem_cons_self _ _)
  calc (rawDates a g).length
      = ((List.range (g.headD []).length).map (fun week =>
          ((List.range 7).filterMap (fun day =>
            if getCell g day week then some (a + ((week * 7 + day : Nat) : Int))
            else none)).length)).sum := by
        unfold rawDates
        rw [flatMap_length]
    _ = ∑ week in Finset.range W, ∑ day in Finset.range 7,
          (if getCell g day week then 1 else 0) := by
        rw [hW, list_range_map_sum]
        refine Finset.sum_congr rfl (fun week _ => ?_)
        rw [filterMap_if_length (List.range 7) (fun day => getCell g day week)
          (fun day => a + ((week * 7 + day : Nat) : Int))]
        exact list_range_map_sum _ 7
    _ = ∑ day in Finset.range 7, ∑ week in Finset.range W,
          (if getCell g day week then 1 else 0) := Finset.sum_comm
    _ = ∑ day in Finset.range 7,
          ((g.getD day []).filter (fun b => b)).length := by
        refine Finset.sum_congr rfl (fun day hday => ?_)
        rw [Finset.mem_range] at hday
        have hd : day < g.length := by omega
        have hmem : g.getD day [] ∈ g := by
          rw [List.getD_eq_getElem?_getD, List.getElem?_eq_getElem hd]
          exact List.getElem_mem hd
        have hrow : (g.getD day []).length = W := hrect _ hmem
        rw [filter_length_sum, hrow]
        exact Finset.sum_congr rfl (fun week _ => rfl)
    _ = ∑ day in Finset.range g.length,
          ((g.getD day []).filter (fun b => b)).length := by rw [h7]
    _ = countTrue g := by
        rw [countTrue, map_sum_getD]

theorem mem_week_block (a : Int) (g : List (List Bool)) (week : Nat) (x : Int)
    (hx : x ∈ (List.range 7).filterMap (fun day =>
      if getCell g day week then some (a + ((week * 7 + day : Nat) : Int))
      else none)) :
    ∃ day, day < 7 ∧ getCell g day week = true ∧
      x = a + ((week * 7 + day : Nat) : Int) := by
  rw [List.mem_filterMap] at hx
  obtain ⟨day, hday, hif⟩ := hx
  rw [List.mem_range] at hday
  by_cases h : getCell g day week = true
  · rw [if_pos h] at hif
    exact ⟨day, hday, h, (Option.some.inj hif).symm⟩
  · rw [if_neg h] at hif
    cases hif

theorem pairwise_week_block (a : Int) (g : List (List Bool)) (week : Nat) :
    List.Pairwise (· < ·) ((List.range 7).filterMap (fun day =>
      if getCell g day week then some (a + ((week * 7 + day : Nat) : Int))
      else none)) := by
  refine List.Pairwise.filterMap _ ?_ (List.pairwise_lt_range 7)
  intro d1 d2 hlt b hb b' hb'
  rw [Option.mem_def] at hb hb'
  by_cases h1 : getCell g d1 week = true
  · rw [if_pos h1] at hb
    by_cases h2 : getCell g d2 week = true
    · rw [if_pos h2] at hb'
      have hb1 := (Option.some.inj hb).symm
      have hb2 := (Option.some.inj hb').symm
      rw [hb1, hb2]
      push_cast
      omega
    · rw [if_neg h2] at hb'
      cases hb'
  · rw [if_neg h1] at hb
    cases hb

theorem pairwise_weeks (a : Int) (g : List (List Bool)) (n : Nat) :
    List.Pairwise (· < ·) ((List.range n).flatMap (fun week =>
      (List.range 7).filterMap (fun day =>
        if getCell g day week then some (a + ((week * 7 + day : Nat) : Int))
        else none))) ∧
    ∀ x ∈ (List.range n).flatMap (fun week =>
      (List.range 7).filterMap (fun day =>
        if getCell g day week then some (a + ((week * 7 + day : Nat) : Int))
        else none)), x < a + 7 * (n : Int) := by
  induction n with
  | zero => simp
  | succ n ih =>
      rw [List.range_succ, List.flatMap_append]
      constructor
      · rw [List.pairwise_append]
        refine ⟨ih.1, ?_, ?_⟩
        · simp only [List.flatMap_cons, List.flatMap_nil, List.append_nil]
          exact pairwise_week_block a g n
        · intro x hx y hy
          simp only [List.flatMap_cons, List.flatMap_nil, List.append_nil] at hy
          obtain ⟨day, hday, _, rfl⟩ := mem_week_block a g n y hy
          have hxb := ih.2 x hx
          push_cast
          push_cast at hxb
          omega
      · intro x hx
        rw [List.mem_append] at hx
        rcases hx with hx | hx
        · have := ih.2 x hx
          push_cast at this ⊢
          omega
        · simp only [List.flatMap_cons, List.flatMap_nil, List.append_nil] at hx
          obtain ⟨day, hday, _, rfl⟩ := mem_week_block a g n x hx
          push_cast
          omega

theorem mem_rawDates (a : Int) (g : List (List Bool)) (x : Int)
    (hx : x ∈ rawDates a g) :
    ∃ week day : Nat, day < 7 ∧ week < (g.headD []).length ∧
      getCell g day week = true ∧ x = a + ((week * 7 + day : Nat) : Int) := by
  unfold rawDates at hx
  rw [List.mem_flatMap] at hx
  obtain ⟨week, hweek, hx⟩ := hx
  rw [List.mem_range] at hweek
  obtain ⟨day, hday, hcell, rfl⟩ := mem_week_block a g week x hx
  exact ⟨week, day, hday, hweek, hcell, rfl⟩

theorem rawDates_mem_of_cell (a : Int) (g : List (List Bool)) (week day : Nat)
    (hday : day < 7) (hweek : week < (g.headD []).length)
    (hcell : getCell g day week = true) :
    a + ((week * 7 + day : Nat) : Int) ∈ rawDates a g := by
  unfold rawDates
  rw [List.mem_flatMap]
  refine ⟨week, List.mem_range.mpr hweek, ?_⟩
  rw [List.mem_filterMap]
  exact ⟨day, List.mem_range.mpr hday, by rw [if_pos hcell]⟩

theorem nodup_get_commit_dates (a : Int) (g : List (List Bool)) :
    ((rawDates a g).mergeSort (fun x y => decide (x ≤ y))).Nodup := by
  have hp : List.Pairwise (· < ·) (rawDates a g) :=
    (pairwise_weeks a g (g.headD []).length).1
  have hnd : (rawDates a g).Nodup := hp.imp (fun h => Int.ne_of_lt h)
  exact ((List.mergeSort_perm (rawDates a g) _).nodup_iff).mpr hnd

/-- Claim C2: for every 7-row rectangular grid and every anchor, the date
list holds exactly one date per true cell — the date anchor + (column * 7
+ row) — every one of its elements arises from a true cell this way, and
its length equals the number of true cells. -/
theorem dates_length_count (a : Int) (g : List (List Bool)) (W : Nat)
    (h7 : g.length = 7) (hrect : ∀ row ∈ g, row.length = W) :
    (get_commit_dates a g).length = countTrue g ∧
    (∀ row col : Nat, row < 7 → col < W → getCell g row col = true →
      (get_commit_dates a g).count (a + ((col * 7 + row : Nat) : Int)) = 1) ∧
    (∀ x ∈ get_commit_dates a g, ∃ row col : Nat, row < 7 ∧ col < W ∧
      getCell g row col = true ∧ x = a + ((col * 7 + row : Nat) : Int)) := by
  have hg : g ≠ [] := by intro h; rw [h] at h7; simp at h7
  have hW : (g.headD []).length = W := by
    cases g with
    | nil => exact absurd rfl hg
    | cons r0 rest => exact hrect r0 (List.mem_cons_self _ _)
  refine ⟨?_, ?_, ?_⟩
  · unfold get_commit_dates
    split
    · next h =>
        rcases h with h | h
        · exact absurd h hg
        · have hW0 : W = 0 := by
            rw [h] at hW
            simpa using hW.symm
          have hc : countTrue g = 0 := by
            unfold countTrue
            apply List.sum_eq_zero
            intro x hx
            rw [List.mem_map] at hx
            obtain ⟨row, hrow, rfl⟩ := hx
            have hlen := hrect row hrow
            rw [hW0] at hlen
            rw [List.length_eq_zero.mp hlen]
            rfl
          simp [hc]
    · rw [List.length_mergeSort]
      exact length_rawDates a g W h7 hrect
  · intro row col hrow hcol hcell
    have hne : ¬(g = [] ∨ g.headD [] = []) := by
      rintro (h | h)
      · exact hg h
      · rw [h] at hW
        simp at hW
        omega
    unfold get_commit_dates
    rw [if_neg hne]
    have hmem : a + ((col * 7 + row : Nat) : Int) ∈ rawDates a g :=
      rawDates_mem_of_cell a g col row hrow (by rw [hW]; exact hcol) hcell
    exact List.count_eq_one_of_mem (nodup_get_commit_dates a g)
      (List.mem_mergeSort.mpr hmem)
  · intro x hx
    unfold get_commit_dates at hx
    split at hx
    · cases hx
    · rw [List.mem_mergeSort] at hx
      obtain ⟨week, day, hday, hweek, hcell, rfl⟩ := mem_rawDates a g x hx
      rw [hW] at hweek
      exact ⟨day, week, hday, hweek, hcell, rfl⟩

/-- Witness for C2: a concrete 7×2 grid with 5 true cells yields exactly
5 dates, and its true cell (0, 0) contributes the date 0 exactly once. -/
theorem dates_length_count_witness :
    ([[true, false], [false, true], [false, false], [true, true],
      [false, false], [false, false], [true, false]] : List (List Bool)).length = 7 ∧
    (∀ row ∈ ([[true, false], [false, true], [false, false], [true, true],
      [false, false], [false, false], [true, false]] : List (List Bool)),
        row.length = 2) ∧
    (get_commit_dates 0 [[true, false], [false, true], [false, false], [true, true],
      [false, false], [false, false], [true, false]]).length =
      countTrue [[true, false], [false, true], [false, false], [true, true],
        [false, false], [false, false], [true, false]] ∧
    (get_commit_dates 0 [[true, false], [false, true], [false, false], [true, true],
      [false, false], [false, false], [true, false]]).count
        (0 + ((0 * 7 + 0 : Nat) : Int)) = 1 :=
  ⟨rfl, by decide,
    (dates_length_count 0
      [[true, false], [false, true], [false, false], [true, true],
        [false, false], [false, false], [true, false]] 2 rfl (by decide)).1,
    (dates_length_count 0
      [[true, false], [false, true], [false, false], [true, true],
        [false, false], [false, false], [true, false]] 2 rfl (by decide)).2.1
      0 0 (by decide) (by decide) (by decide)⟩

/-- Claim C3: the date list is always sorted ascending, contains no date
before the anchor, and contains no duplicates. -/
theorem dates_sorted_anchor_nodup (a : Int) (g : List (List Bool)) :
    List.Sorted (· ≤ ·) (get_commit_dates a g) ∧
    (∀ x ∈ get_commit_dates a g, a ≤ x) ∧
    (get_commit_dates a g).Nodup := by
  unfold get_commit_dates
  split
  · simp
  · refine ⟨?_, ?_, ?_⟩
    · have htrans : ∀ (x y z : Int),
          decide (x ≤ y) = true → decide (y ≤ z) = true → decide (x ≤ z) = true := by
        intro x y z hxy hyz
        simp only [decide_eq_true_eq] at *
        omega
      have htotal : ∀ (x y : Int),
          (decide (x ≤ y) || decide (y ≤ x)) = true := by
        intro x y
        simp only [Bool.or_eq_true, decide_eq_true_eq]
        omega
      have h := List.sorted_mergeSort htrans htotal (rawDates a g)
      exact h.imp (fun hxy => by simpa using hxy)
    · intro x hx
      rw [List.mem_mergeSort] at hx
      obtain ⟨week, day, _, _, _, rfl⟩ := mem_rawDates a g x hx
      omega
    · have hp : List.Pairwise (· < ·) (rawDates a g) :=
        (pairwise_weeks a g (g.headD []).length).1
      have hnd : (rawDates a g).Nodup := hp.imp (fun h => Int.ne_of_lt h)
      exact ((List.mergeSort_perm (rawDates a g) _).nodup_iff).mpr hnd

/-- Witness for C3: the one-cell grid `[[true]]` with anchor 0 produces the
date 0, which is a member of the output and not before the anchor. -/
theorem dates_sorted_anchor_nodup_witness :
    (0 : Int) ∈ get_commit_dates 0 [[true]] ∧ (0 : Int) ≤ 0 := by
  have hmem : (0 : Int) ∈ get_commit_dates 0 [[true]] := by
    unfold get_commit_dates
    rw [if_neg (by simp)]
    rw [List.mem_mergeSort]
    decide
  exact ⟨hmem, (dates_sorted_anchor_nodup 0 [[true]]).2.1 0 hmem⟩

end GithubWordDrawer
